import Mathlib

/-!
# xiaozhi-mcp-pipe: the reconnecting websocket/stdio bridge of `main.go`

A shallow embedding of `main.go`.  Every call of the program into the outside
world (the websocket dial, the pipe creation, `cmd.Start`, `cmd.Wait`, the
channel and pipe reads and writes, the test of `ctx.Done()`) takes its result
from a script given as an argument.  `connectToServer` is embedded as its
return value; the loops (`connectWithRetry`, the loop of `main`, the three
forwarders) return the trace of the effects they performed together with
their return value.  A loop whose script is used up is still running: it is
blocked in the call whose result the script does not give.  Logging is left
out.
-/

namespace XiaozhiMcpPipe

/-! ## Reconnection settings and machine arithmetic -/

/-- Initial wait time in seconds (`INITIAL_BACKOFF`). -/
def INITIAL_BACKOFF : Int := 1

/-- Maximum wait time in seconds (`MAX_BACKOFF`). -/
def MAX_BACKOFF : Int := 600

/-- The constant `time.Second`: a `time.Duration` counts nanoseconds. -/
def Second : Int := 1000000000

/-- Two's complement wrap-around of a 64-bit signed integer (Go `int` on a
64-bit platform, `int64`, `time.Duration`). -/
def wrapInt64 (x : Int) : Int :=
  (x + 9223372036854775808) % 18446744073709551616 - 9223372036854775808

/-! ## connectToServer -/

/-- How `cmd.Wait()` ended. -/
inductive WaitResult where
  | exited (code : Nat)
  | signaled (sig : Nat)
  | waitFailed
  deriving DecidableEq, Repr

/-- The results that the outside world gives to one call of
`connectToServer`: the outcome of each fallible call in program order, and
whether each of the three forwarders met an error while the child ran. -/
structure SessionEnv where
  dialOk : Bool
  stdinPipeOk : Bool
  stdoutPipeOk : Bool
  stderrPipeOk : Bool
  startOk : Bool
  wait : WaitResult
  inboundFailed : Bool
  outboundFailed : Bool
  diagnosticFailed : Bool
  deriving DecidableEq, Repr

/-- The non-nil errors that `connectToServer` builds with `fmt.Errorf`, one
for each `return fmt.Errorf(...)` of the function. -/
inductive ConnError where
  | failedToConnect
  | failedStdinPipe
  | failedStdoutPipe
  | failedStderrPipe
  | failedToStart
  deriving DecidableEq, Repr

/-- The function `connectToServer`: its return value, `none` for Go `nil`.
`cmd.Wait()` returns nil exactly for exit status 0; its error is only
logged.  The forwarders are started with `go` and nothing they do reaches
the return value. -/
def connectToServer (env : SessionEnv) : Option ConnError :=
  if !env.dialOk then some ConnError.failedToConnect
  else if !env.stdinPipeOk then some ConnError.failedStdinPipe
  else if !env.stdoutPipeOk then some ConnError.failedStdoutPipe
  else if !env.stderrPipeOk then some ConnError.failedStderrPipe
  else if !env.startOk then some ConnError.failedToStart
  else none

/-! ## connectWithRetry and the loop of main -/

/-- The effects of the supervisor that the claims speak about. -/
inductive Event where
  /-- A call `time.Sleep(waitTime)`, the duration in nanoseconds. -/
  | sleep (waitTime : Int)
  /-- A call of `connectToServer`, with the value of `reconnectAttempt` at
  the call. -/
  | connect (reconnectAttempt : Nat)
  /-- The statement `return nil` of `connectWithRetry`. -/
  | returned
  deriving DecidableEq, Repr

/-- One run of `connectWithRetry`: the effects so far, the return value
(`none` while the function is still in its loop, `some r` once it has
returned the Go error `r`), and the part of the script not yet used. -/
structure RetryRun where
  trace : List Event
  result : Option (Option ConnError)
  rest : List SessionEnv
  deriving DecidableEq, Repr

/-- The `if reconnectAttempt > 0` block at the top of the loop body. -/
def waitBefore (reconnectAttempt : Nat) (backoff : Int) : List Event :=
  if reconnectAttempt > 0 then [Event.sleep (wrapInt64 (backoff * Second))] else []

/-- The statement `backoff = min(backoff*2, MAX_BACKOFF)`. -/
def nextBackoff (backoff : Int) : Int :=
  min (wrapInt64 (backoff * 2)) MAX_BACKOFF

/-- The `for` loop of `connectWithRetry`, from the state
`(reconnectAttempt, backoff)`.  The counter is a natural number: it is only
compared with 0 and logged, and each increment but the first follows a sleep
of at least a second. -/
def connectWithRetryLoop (reconnectAttempt : Nat) (backoff : Int) :
    List SessionEnv → RetryRun
  | [] =>
    { trace := waitBefore reconnectAttempt backoff ++ [Event.connect reconnectAttempt],
      result := none, rest := [] }
  | env :: envs =>
    match connectToServer env with
    | none =>
      { trace := waitBefore reconnectAttempt backoff ++
          [Event.connect reconnectAttempt, Event.returned],
        result := some none, rest := envs }
    | some _ =>
      let r := connectWithRetryLoop (reconnectAttempt + 1) (nextBackoff backoff) envs
      { r with trace := waitBefore reconnectAttempt backoff ++
          Event.connect reconnectAttempt :: r.trace }

/-- The function `connectWithRetry`. -/
def connectWithRetry (envs : List SessionEnv) : RetryRun :=
  connectWithRetryLoop 0 INITIAL_BACKOFF envs

/-- The `for` loop of `main`: `connectWithRetry` is called again each time
it returns; a non-nil error would only be logged.  The fuel bounds the
number of calls. -/
def mainLoop : Nat → List SessionEnv → List Event
  | 0, _ => []
  | fuel + 1, envs =>
    let r := connectWithRetry envs
    match r.result with
    | none => r.trace
    | some _ => r.trace ++ mainLoop fuel r.rest

/-- How `main` goes on. -/
inductive MainOutcome where
  /-- A call of `log.Fatalf`: the program exits with status 1. -/
  | fatal (msg : String)
  /-- The program is in its main loop, with these effects so far. -/
  | serving (trace : List Event)
  deriving DecidableEq, Repr

/-- The function `main`, without the signal handler: `args` is `os.Args`,
`endpoint` the value of `MCP_ENDPOINT`. -/
def main (args : List String) (endpoint : String) (fuel : Nat)
    (envs : List SessionEnv) : MainOutcome :=
  if args.length < 2 then
    MainOutcome.fatal "Usage: xiaozhi-mcp-pipe <command> arg1 arg2 ..."
  else if endpoint = "" then
    MainOutcome.fatal "Please set the `MCP_ENDPOINT` environment variable"
  else MainOutcome.serving (mainLoop fuel envs)

/-- A script entry for a connection that is refused. -/
def refused : SessionEnv :=
  { dialOk := false, stdinPipeOk := true, stdoutPipeOk := true, stderrPipeOk := true,
    startOk := true, wait := WaitResult.exited 0, inboundFailed := false,
    outboundFailed := false, diagnosticFailed := false }

/-- A script entry for a session that connects, starts the child and runs it
until it ends as `w`. -/
def session (w : WaitResult) : SessionEnv :=
  { dialOk := true, stdinPipeOk := true, stdoutPipeOk := true, stderrPipeOk := true,
    startOk := true, wait := w, inboundFailed := false,
    outboundFailed := false, diagnosticFailed := false }

/-- The durations slept in a trace, in order. -/
def sleeps : List Event → List Int
  | [] => []
  | Event.sleep d :: es => d :: sleeps es
  | _ :: es => sleeps es

/-- The number of calls of `connectToServer` in a trace. -/
def connects : List Event → Nat
  | [] => 0
  | Event.connect _ :: es => connects es + 1
  | _ :: es => connects es

/-- The value of the variable `backoff` after `k` failed attempts. -/
def backoffAfter (k : Nat) : Int := nextBackoff^[k] INITIAL_BACKOFF

/-- The effects of `n` failed attempts in a row from the state `(a, b)`. -/
def failTrace (a : Nat) (b : Int) : Nat → List Event
  | 0 => []
  | n + 1 => waitBefore a b ++ Event.connect a :: failTrace (a + 1) (nextBackoff b) n

/-! ## Byte streams and forwarder runs -/

/-- A Go `[]byte`. -/
abbrev Bytes := List UInt8

/-- The byte of the newline character. -/
def newline : UInt8 := 0x0A

/-- The byte of the carriage return character. -/
def carriageReturn : UInt8 := 0x0D

/-- A run of a forwarder: the effects it performed, and whether it has
returned (`false`: it is blocked in a call whose result the script does not
give). -/
structure Run (ε : Type) where
  trace : List ε
  returned : Bool
  deriving DecidableEq, Repr

/-- Puts an effect in front of a run. -/
def Run.cons {ε : Type} (e : ε) (r : Run ε) : Run ε :=
  { r with trace := e :: r.trace }

/-! ## pipeWebSocketToProcess -/

/-- What one iteration of the loop of `pipeWebSocketToProcess` meets. -/
structure InboundStep where
  /-- The `select` takes the case `<-ctx.Done()`. -/
  ctxDone : Bool
  /-- The result of `conn.ReadMessage()`: the message, or `none` for an error. -/
  read : Option Bytes
  /-- The call `stdin.Write(message)` returns a nil error. -/
  writeOk : Bool
  deriving DecidableEq, Repr

/-- The effects on the child's stdin. -/
inductive StdinEvent where
  | write (p : Bytes)
  | close
  deriving DecidableEq, Repr

/-- The `for` loop of `pipeWebSocketToProcess`. -/
def pipeWebSocketToProcessLoop : List InboundStep → Run StdinEvent
  | [] => { trace := [], returned := false }
  | s :: steps =>
    if s.ctxDone then { trace := [], returned := true }
    else
      match s.read with
      | none => { trace := [], returned := true }
      | some message =>
        let message := message ++ [newline]
        if !s.writeOk then { trace := [StdinEvent.write message], returned := true }
        else (pipeWebSocketToProcessLoop steps).cons (StdinEvent.write message)

/-- The function `pipeWebSocketToProcess`: the loop, and the deferred
`stdin.Close()` when the function returns. -/
def pipeWebSocketToProcess (steps : List InboundStep) : Run StdinEvent :=
  let r := pipeWebSocketToProcessLoop steps
  if r.returned then { r with trace := r.trace ++ [StdinEvent.close] } else r

/-- A step in which the channel delivers the message `m` and the write to
stdin succeeds, the session not being cancelled. -/
def delivered (m : Bytes) : InboundStep :=
  { ctxDone := false, read := some m, writeOk := true }

/-- A step in which the channel read fails. -/
def readError : InboundStep :=
  { ctxDone := false, read := none, writeOk := true }

/-- The bytes that a trace writes to stdin, in order. -/
def stdinBytes : List StdinEvent → Bytes
  | [] => []
  | StdinEvent.write p :: es => p ++ stdinBytes es
  | StdinEvent.close :: es => stdinBytes es

/-! ## bufio.Scanner with the split function ScanLines -/

/-- The search of `bytes.IndexByte` from index `i` on. -/
def indexByteFrom (c : UInt8) (i : Nat) : Bytes → Option Nat
  | [] => none
  | b :: bs => if b = c then some i else indexByteFrom c (i + 1) bs

/-- The function `bytes.IndexByte`: the index of the first `c` in `data`,
`none` for Go's -1. -/
def IndexByte (data : Bytes) (c : UInt8) : Option Nat :=
  indexByteFrom c 0 data

/-- The function `dropCR` of package bufio: drops a terminal carriage
return. -/
def dropCR (data : Bytes) : Bytes :=
  if data.length > 0 ∧ data.getLast? = some carriageReturn then data.dropLast else data

/-- The function `bufio.ScanLines`: the number of bytes to advance and the
token, `none` for a nil token (more data is requested). -/
def ScanLines (data : Bytes) (atEOF : Bool) : Nat × Option Bytes :=
  if atEOF && data.length == 0 then (0, none)
  else
    match IndexByte data newline with
    | some i => (i + 1, some (dropCR (data.take i)))
    | none => if atEOF then (data.length, some (dropCR data)) else (0, none)

/-- The constant `bufio.MaxScanTokenSize`, the size to which the buffer of a
scanner made by `bufio.NewScanner` may grow. -/
def MaxScanTokenSize : Nat := 64 * 1024

/-- The error of a scanner. -/
inductive ScanError where
  | ErrTooLong
  deriving DecidableEq, Repr

/-- A `bufio.Scanner` over a reader that gives the bytes `input` and then
ends: `input` holds what is buffered or still to be read, `token` what
`Bytes()` returns. -/
structure Scanner where
  input : Bytes
  token : Bytes
  err : Option ScanError
  done : Bool
  deriving DecidableEq, Repr

/-- The function `bufio.NewScanner`. -/
def NewScanner (r : Bytes) : Scanner :=
  { input := r, token := [], err := none, done := false }

/-- The method `Scan` of `bufio.Scanner`, for the split function `ScanLines`
and the buffer limit `MaxScanTokenSize` that `bufio.NewScanner` sets.  The
growth of the buffer and the single reads that fill it are not modelled:
the buffer holds the unconsumed input from the start of the next token on, up
to `MaxScanTokenSize` bytes.  The split function is called on the buffer;
when it finds no token and the buffer is full, `Scan` fails with
`ErrTooLong`; when it finds none and the reader has ended, it is called a
last time with `atEOF`. -/
def Scanner.Scan (s : Scanner) : Bool × Scanner :=
  if s.done then (false, s)
  else
    match ScanLines (s.input.take MaxScanTokenSize) false with
    | (advance, some token) =>
      (true, { s with input := s.input.drop advance, token := token })
    | (_, none) =>
      if s.input.length ≥ MaxScanTokenSize then
        (false, { s with err := some ScanError.ErrTooLong, done := true })
      else
        match ScanLines s.input true with
        | (advance, some token) =>
          (true, { s with input := s.input.drop advance, token := token })
        | (_, none) => (false, { s with done := true })

/-! ## pipeProcessToWebSocket -/

/-- What one iteration of the loop of `pipeProcessToWebSocket` meets. -/
structure OutboundStep where
  /-- The `select` takes the case `<-ctx.Done()`. -/
  ctxDone : Bool
  /-- The call `conn.WriteMessage` returns a nil error. -/
  writeOk : Bool
  deriving DecidableEq, Repr

/-- The effects on the channel. -/
inductive ConnEvent where
  /-- A call `conn.WriteMessage(websocket.TextMessage, line)`. -/
  | send (line : Bytes)
  | close
  deriving DecidableEq, Repr

/-- The loop `for scanner.Scan() { ... }` of `pipeProcessToWebSocket`. -/
def pipeProcessToWebSocketLoop (scanner : Scanner) : List OutboundStep → Run ConnEvent
  | [] =>
    match scanner.Scan with
    | (false, _) => { trace := [], returned := true }
    | (true, _) => { trace := [], returned := false }
  | c :: steps =>
    match scanner.Scan with
    | (false, _) => { trace := [], returned := true }
    | (true, scanner) =>
      if c.ctxDone then { trace := [], returned := true }
      else
        let line := scanner.token
        if !c.writeOk then { trace := [ConnEvent.send line], returned := true }
        else (pipeProcessToWebSocketLoop scanner steps).cons (ConnEvent.send line)

/-- The function `pipeProcessToWebSocket` on the bytes `stdout` that the
child writes before its output ends: the loop, and the deferred
`conn.Close()` when the function returns. -/
def pipeProcessToWebSocket (stdout : Bytes) (steps : List OutboundStep) : Run ConnEvent :=
  let r := pipeProcessToWebSocketLoop (NewScanner stdout) steps
  if r.returned then { r with trace := r.trace ++ [ConnEvent.close] } else r

/-- An iteration in which the session is not cancelled and the channel write
succeeds. -/
def forwarded : OutboundStep := { ctxDone := false, writeOk := true }

/-- The messages that a trace sends on the channel, in order. -/
def sent : List ConnEvent → List Bytes
  | [] => []
  | ConnEvent.send line :: es => line :: sent es
  | ConnEvent.close :: es => sent es

/-- The byte stream of newline-delimited lines. -/
def joinLines : List Bytes → Bytes
  | [] => []
  | l :: ls => l ++ newline :: joinLines ls

/-! ## pipeProcessStderrToTerminal -/

/-- What one iteration of the loop of `pipeProcessStderrToTerminal` meets. -/
structure StderrStep where
  /-- The `select` takes the case `<-ctx.Done()`. -/
  ctxDone : Bool
  /-- The bytes `data[:n]` that `stderr.Read(data)` returns. -/
  data : Bytes
  /-- The call `stderr.Read(data)` returns a non-nil error (`io.EOF` too). -/
  err : Bool
  deriving DecidableEq, Repr

/-- The effects of the diagnostic forwarder. -/
inductive DiagEvent where
  /-- A call `stderr.Read(data)`. -/
  | read
  /-- A call `os.Stderr.Write(data[:n])`. -/
  | write (p : Bytes)
  deriving DecidableEq, Repr

/-- The function `pipeProcessStderrToTerminal`. -/
def pipeProcessStderrToTerminal : List StderrStep → Run DiagEvent
  | [] => { trace := [], returned := false }
  | s :: steps =>
    if s.ctxDone then { trace := [], returned := true }
    else if s.err then { trace := [DiagEvent.read], returned := true }
    else if s.data.length == 0 then { trace := [DiagEvent.read], returned := true }
    else
      ((pipeProcessStderrToTerminal steps).cons (DiagEvent.write s.data)).cons DiagEvent.read

/-- The bytes that a trace writes to the local stderr, in order. -/
def stderrBytes : List DiagEvent → Bytes
  | [] => []
  | DiagEvent.write p :: es => p ++ stderrBytes es
  | DiagEvent.read :: es => stderrBytes es

/-- The number of calls of `stderr.Read` in a trace. -/
def readCount : List DiagEvent → Nat
  | [] => 0
  | DiagEvent.read :: es => readCount es + 1
  | DiagEvent.write _ :: es => readCount es

/-- A step at which the loop of `pipeWebSocketToProcess` stops. -/
def InboundStep.stops (s : InboundStep) : Bool :=
  s.ctxDone || s.read.isNone || !s.writeOk

/-- An iteration in which `stderr.Read` returns the bytes `c` and no error,
the session not being cancelled. -/
def gotChunk (c : Bytes) : StderrStep := { ctxDone := false, data := c, err := false }

/-- The effects of reading and writing the chunks one after the other. -/
def passthrough : List Bytes → List DiagEvent
  | [] => []
  | c :: cs => DiagEvent.read :: DiagEvent.write c :: passthrough cs

/-- The messages that come back for the inbound messages `ms` when the child
copies its stdin to its stdout: the channel delivers `ms` and then fails,
`pipeWebSocketToProcess` writes to stdin, the child's stdout carries the same
bytes, and `pipeProcessToWebSocket` forwards their lines without being
cancelled and without a failing write. -/
def roundTrip (ms : List Bytes) : List Bytes :=
  let stdin := stdinBytes (pipeWebSocketToProcess (ms.map delivered ++ [readError])).trace
  sent (pipeProcessToWebSocket stdin (List.replicate (stdin.length + 1) forwarded)).trace

/-! ## The backoff arithmetic -/

theorem wrapInt64_eq_self (x : Int) (h1 : -9223372036854775808 ≤ x)
    (h2 : x < 9223372036854775808) : wrapInt64 x = x := by
  unfold wrapInt64
  omega

theorem nextBackoff_of_bounds (b : Int) (h1 : 1 ≤ b) (h2 : b ≤ 600) :
    nextBackoff b = min (b * 2) 600 := by
  unfold nextBackoff MAX_BACKOFF
  rw [wrapInt64_eq_self _ (by omega) (by omega)]

theorem backoffAfter_succ (k : Nat) : backoffAfter (k + 1) = nextBackoff (backoffAfter k) := by
  unfold backoffAfter
  rw [Function.iterate_succ_apply']

theorem backoffAfter_eq (k : Nat) : backoffAfter k = min (2 ^ k) 600 := by
  induction k with
  | zero => decide
  | succ k ih =>
    have hp : (0 : Int) < 2 ^ k := by positivity
    rw [backoffAfter_succ, ih, nextBackoff_of_bounds _ (by omega) (by omega), pow_succ]
    omega

theorem backoffAfter_bounds (k : Nat) : 1 ≤ backoffAfter k ∧ backoffAfter k ≤ 600 := by
  have hp : (0 : Int) < 2 ^ k := by positivity
  rw [backoffAfter_eq]
  omega

theorem wait_eq (k : Nat) :
    wrapInt64 (backoffAfter k * Second) = backoffAfter k * Second := by
  have h := backoffAfter_bounds k
  unfold Second
  apply wrapInt64_eq_self <;> omega

/-! ## Traces of connectWithRetry -/

theorem sleeps_append (xs ys : List Event) : sleeps (xs ++ ys) = sleeps xs ++ sleeps ys := by
  induction xs with
  | nil => rfl
  | cons e es ih => cases e <;> simp [sleeps, ih]

theorem connects_append (xs ys : List Event) :
    connects (xs ++ ys) = connects xs + connects ys := by
  induction xs with
  | nil => simp [connects]
  | cons e es ih =>
    cases e
    all_goals simp [connects, ih]
    all_goals omega

theorem connects_waitBefore (a : Nat) (b : Int) : connects (waitBefore a b) = 0 := by
  unfold waitBefore
  split <;> rfl

/-- A failed attempt: the counter is incremented, the backoff doubled, and the
loop goes on with the rest of the script. -/
theorem connectWithRetryLoop_failed (a : Nat) (b : Int) (env : SessionEnv)
    (envs : List SessionEnv) (h : connectToServer env ≠ none) :
    connectWithRetryLoop a b (env :: envs) =
      { connectWithRetryLoop (a + 1) (nextBackoff b) envs with
        trace := waitBefore a b ++
          Event.connect a :: (connectWithRetryLoop (a + 1) (nextBackoff b) envs).trace } := by
  cases hc : connectToServer env with
  | none => exact absurd hc h
  | some e => simp [connectWithRetryLoop, hc]

/-- A successful attempt: the function returns nil. -/
theorem connectWithRetryLoop_connected (a : Nat) (b : Int) (env : SessionEnv)
    (envs : List SessionEnv) (h : connectToServer env = none) :
    connectWithRetryLoop a b (env :: envs) =
      { trace := waitBefore a b ++ [Event.connect a, Event.returned],
        result := some none, rest := envs } := by
  simp [connectWithRetryLoop, h]

theorem connectWithRetryLoop_append (fails rest : List SessionEnv)
    (h : ∀ e ∈ fails, connectToServer e ≠ none) (a : Nat) (b : Int) :
    connectWithRetryLoop a b (fails ++ rest) =
      { connectWithRetryLoop (a + fails.length) (nextBackoff^[fails.length] b) rest with
        trace := failTrace a b fails.length ++
          (connectWithRetryLoop (a + fails.length) (nextBackoff^[fails.length] b) rest).trace } := by
  induction fails generalizing a b with
  | nil => simp [failTrace]
  | cons e es ih =>
    have he : connectToServer e ≠ none := h e (List.mem_cons_self _ _)
    have hes : ∀ x ∈ es, connectToServer x ≠ none := fun x hx => h x (List.mem_cons_of_mem _ hx)
    rw [List.cons_append, connectWithRetryLoop_failed _ _ _ _ he, ih hes]
    simp [failTrace, Nat.add_assoc, Nat.add_comm 1]

theorem sleeps_failTrace (n a : Nat) (k : Nat) :
    sleeps (failTrace (a + 1) (backoffAfter (k + 1)) n) =
      (List.range n).map (fun i => backoffAfter (k + 1 + i) * Second) := by
  induction n generalizing a k with
  | zero => rfl
  | succ n ih =>
    rw [failTrace, ← backoffAfter_succ, sleeps_append]
    simp only [sleeps]
    rw [ih, List.range_succ_eq_map]
    simp [waitBefore, sleeps, wait_eq, Function.comp_def, Nat.add_assoc, Nat.add_comm 1]
    intro i _
    exact Or.inl (by rw [Nat.add_comm 2 i])

theorem connects_failTrace (n a : Nat) (b : Int) : connects (failTrace a b n) = n := by
  induction n generalizing a b with
  | zero => rfl
  | succ n ih => simp [failTrace, connects_append, connects_waitBefore, connects, ih]

theorem refused_fails : ∀ e ∈ List.replicate n refused, connectToServer e ≠ none := by
  intro e he
  rw [List.eq_of_mem_replicate he]
  decide

theorem sleeps_connect (a : Nat) (es : List Event) :
    sleeps (Event.connect a :: es) = sleeps es := rfl

theorem sleeps_waitBefore_zero (b : Int) : sleeps (waitBefore 0 b) = [] := rfl

theorem sleeps_waitBefore_succ (a : Nat) (b : Int) :
    sleeps (waitBefore (a + 1) b) = [wrapInt64 (b * Second)] := by
  simp [waitBefore, sleeps]

theorem sleeps_connectWithRetry_fails (fails : List SessionEnv)
    (h : ∀ e ∈ fails, connectToServer e ≠ none) :
    sleeps (connectWithRetry fails).trace =
      (List.range fails.length).map (fun k => backoffAfter (k + 1) * Second) := by
  have happ := connectWithRetryLoop_append fails [] h 0 INITIAL_BACKOFF
  rw [List.append_nil] at happ
  unfold connectWithRetry
  rw [happ]
  cases hn : fails.length with
  | zero => simp [failTrace, connectWithRetryLoop, waitBefore, sleeps]
  | succ n =>
    have h0 : nextBackoff INITIAL_BACKOFF = backoffAfter (0 + 1) := rfl
    have h1 : nextBackoff^[n + 1] INITIAL_BACKOFF = backoffAfter (n + 1) := rfl
    simp only [failTrace, connectWithRetryLoop, h1, h0, Nat.zero_add]
    rw [sleeps_append, sleeps_append, sleeps_append, sleeps_connect, sleeps_connect,
      sleeps_waitBefore_zero, sleeps_waitBefore_succ, sleeps_failTrace, List.range_succ]
    simp [sleeps, wait_eq, Nat.add_comm 1]

theorem result_connectWithRetryLoop (envs : List SessionEnv) (a : Nat) (b : Int) :
    (connectWithRetryLoop a b envs).result = none ∨
      (connectWithRetryLoop a b envs).result = some none := by
  induction envs generalizing a b with
  | nil => exact Or.inl rfl
  | cons e es ih =>
    cases hc : connectToServer e with
    | none => rw [connectWithRetryLoop_connected _ _ _ _ hc]; exact Or.inr rfl
    | some x =>
      rw [connectWithRetryLoop_failed _ _ _ _ (by rw [hc]; exact Option.some_ne_none x)]
      exact ih (a + 1) (nextBackoff b)

theorem result_connectWithRetryLoop_iff (envs : List SessionEnv) (a : Nat) (b : Int) :
    (connectWithRetryLoop a b envs).result = some none ↔
      ∃ e ∈ envs, connectToServer e = none := by
  induction envs generalizing a b with
  | nil => simp [connectWithRetryLoop]
  | cons e es ih =>
    cases hc : connectToServer e with
    | none =>
      rw [connectWithRetryLoop_connected _ _ _ _ hc]
      exact ⟨fun _ => ⟨e, List.mem_cons_self _ _, hc⟩, fun _ => rfl⟩
    | some x =>
      rw [connectWithRetryLoop_failed _ _ _ _ (by rw [hc]; exact Option.some_ne_none x)]
      simp [ih, hc]

/-- Every script entry that a run of `connectWithRetry` uses is one call of
`connectToServer`, and a run that has not returned has one more call in
flight. -/
theorem connects_connectWithRetryLoop (envs : List SessionEnv) (a : Nat) (b : Int) :
    connects (connectWithRetryLoop a b envs).trace +
        (connectWithRetryLoop a b envs).rest.length =
      envs.length + (if (connectWithRetryLoop a b envs).result = none then 1 else 0) ∧
    ((connectWithRetryLoop a b envs).result ≠ none →
      (connectWithRetryLoop a b envs).rest.length < envs.length) ∧
    ((connectWithRetryLoop a b envs).result = none →
      (connectWithRetryLoop a b envs).rest = []) := by
  induction envs generalizing a b with
  | nil => simp [connectWithRetryLoop, connects_append, connects_waitBefore, connects]
  | cons e es ih =>
    cases hc : connectToServer e with
    | none =>
      rw [connectWithRetryLoop_connected _ _ _ _ hc]
      simp only [connects_append, connects_waitBefore, connects, List.length_cons]
      simp
      omega
    | some x =>
      rw [connectWithRetryLoop_failed _ _ _ _ (by rw [hc]; exact Option.some_ne_none x)]
      obtain ⟨h1, h2, h3⟩ := ih (a + 1) (nextBackoff b)
      refine ⟨?_, ?_, ?_⟩
      · simp only [connects_append, connects_waitBefore, connects, List.length_cons]
        omega
      · intro hr
        have := h2 hr
        simp only [List.length_cons]
        omega
      · exact h3

theorem connects_mainLoop (fuel : Nat) (envs : List SessionEnv) (h : envs.length < fuel) :
    connects (mainLoop fuel envs) = envs.length + 1 := by
  induction fuel generalizing envs with
  | zero => omega
  | succ fuel ih =>
    obtain ⟨h1, h2, h3⟩ := connects_connectWithRetryLoop envs 0 INITIAL_BACKOFF
    cases hr : (connectWithRetryLoop 0 INITIAL_BACKOFF envs).result with
    | none =>
      simp only [hr, if_true] at h1
      rw [h3 hr] at h1
      simp only [mainLoop, connectWithRetry, hr]
      simpa using h1
    | some r =>
      have hlt := h2 (by rw [hr]; exact Option.some_ne_none r)
      simp only [mainLoop, connectWithRetry, hr, connects_append]
      rw [ih _ (by omega)]
      simp [hr] at h1
      omega

theorem mainLoop_connected (fuel : Nat) (env : SessionEnv) (rest : List SessionEnv)
    (h : connectToServer env = none) :
    mainLoop (fuel + 1) (env :: rest) =
      [Event.connect 0, Event.returned] ++ mainLoop fuel rest := by
  simp only [mainLoop, connectWithRetry, connectWithRetryLoop_connected _ _ _ _ h]
  simp [waitBefore]

/-! ## The supervisor: the claims -/

/-- C1, the code at the claim's scenario and at any number of refusals: the
first attempt is made with no wait, but after three refused connections
`connectWithRetry` has slept 2s, 4s and 8s, not 1s, 2s and 4s, and in general
the wait that follows `a` consecutive refusals is `min(2^a, MAX_BACKOFF)`
seconds, not `min(INITIAL_BACKOFF * 2^(a-1), MAX_BACKOFF)`: `backoff` is
doubled before it is first slept. -/
theorem connectWithRetry_sleeps_after_refusals :
    (connectWithRetry [refused, refused, refused]).trace =
      [Event.connect 0, Event.sleep (2 * Second), Event.connect 1, Event.sleep (4 * Second),
        Event.connect 2, Event.sleep (8 * Second), Event.connect 3] ∧
    ∀ a : Nat, sleeps (connectWithRetry (List.replicate a refused)).trace =
      (List.range a).map (fun k => min (2 ^ (k + 1)) MAX_BACKOFF * Second) := by
  refine ⟨by decide, fun a => ?_⟩
  rw [sleeps_connectWithRetry_fails _ refused_fails, List.length_replicate]
  simp only [backoffAfter_eq, MAX_BACKOFF]

/-- C2, the code after a session: whatever the number `n` of refusals before
a session that connected and ran the child until it ended as `w`, the loop of
`main` calls `connectWithRetry` again, which makes its first attempt with the
counter at 0 and with no wait; when that attempt is refused the wait before
the following attempt is 2 seconds, not `INITIAL_BACKOFF` = 1 second. -/
theorem mainLoop_after_session (n : Nat) (w : WaitResult) :
    mainLoop 2 (List.replicate n refused ++ [session w, refused]) =
      (connectWithRetry (List.replicate n refused ++ [session w])).trace ++
        [Event.connect 0, Event.sleep (2 * Second), Event.connect 1] := by
  have hs : connectToServer (session w) = none := rfl
  have h1 := connectWithRetryLoop_append (List.replicate n refused) [session w, refused]
    refused_fails 0 INITIAL_BACKOFF
  have h2 := connectWithRetryLoop_append (List.replicate n refused) [session w]
    refused_fails 0 INITIAL_BACKOFF
  simp only [mainLoop, connectWithRetry, h1, h2, connectWithRetryLoop_connected _ _ _ _ hs]
  have h3 : (connectWithRetryLoop 0 INITIAL_BACKOFF [refused]).trace =
      [Event.connect 0, Event.sleep (2 * Second), Event.connect 1] := by decide
  have h4 : (connectWithRetryLoop 0 INITIAL_BACKOFF [refused]).result = none := by decide
  simp only [h3, h4]

/-- C6: after any consecutive failed attempts, the durations that
`connectWithRetry` has slept are the values of `backoff` after 1, 2, ...
failures; each is at least 1 second and at most `MAX_BACKOFF` = 600 seconds;
each one after the first is `min(2 * previous, 600s)` and not less than the
previous one; and at every doubling `backoff*2` is at most 1200, so that the
machine multiplication does not wrap around. -/
theorem connectWithRetry_wait_bounds (fails : List SessionEnv)
    (h : ∀ e ∈ fails, connectToServer e ≠ none) :
    sleeps (connectWithRetry fails).trace =
      (List.range fails.length).map (fun k => backoffAfter (k + 1) * Second) ∧
    (∀ w ∈ sleeps (connectWithRetry fails).trace,
      1 * Second ≤ w ∧ w ≤ MAX_BACKOFF * Second) ∧
    List.Chain' (fun p q => q = min (2 * p) (MAX_BACKOFF * Second) ∧ p ≤ q)
      (sleeps (connectWithRetry fails).trace) ∧
    (∀ k : Nat, 1 ≤ backoffAfter k ∧ backoffAfter k * 2 ≤ 1200 ∧
      wrapInt64 (backoffAfter k * 2) = backoffAfter k * 2 ∧
      backoffAfter (k + 1) = min (backoffAfter k * 2) MAX_BACKOFF) := by
  have hstep : ∀ k : Nat, backoffAfter (k + 1) = min (backoffAfter k * 2) 600 := fun k => by
    have hb := backoffAfter_bounds k
    rw [backoffAfter_succ, nextBackoff_of_bounds _ hb.1 hb.2]
  rw [sleeps_connectWithRetry_fails fails h]
  refine ⟨rfl, ?_, ?_, ?_⟩
  · intro w hw
    obtain ⟨k, _, rfl⟩ := List.mem_map.1 hw
    have hb := backoffAfter_bounds (k + 1)
    unfold Second MAX_BACKOFF
    omega
  · rw [List.chain'_map]
    cases fails.length with
    | zero => simp
    | succ n =>
      rw [List.chain'_range_succ]
      intro m _
      have hb := backoffAfter_bounds (m + 1)
      have hs := hstep (m + 1)
      simp only [Nat.succ_eq_add_one]
      unfold Second MAX_BACKOFF
      omega
  · intro k
    have hb := backoffAfter_bounds k
    refine ⟨hb.1, by omega, wrapInt64_eq_self _ (by omega) (by omega), hstep k⟩

/-- C6 at three refused connections. -/
theorem connectWithRetry_wait_bounds_witness :
    sleeps (connectWithRetry [refused, refused, refused]).trace =
      (List.range 3).map (fun k => backoffAfter (k + 1) * Second) ∧
    (∀ w ∈ sleeps (connectWithRetry [refused, refused, refused]).trace,
      1 * Second ≤ w ∧ w ≤ MAX_BACKOFF * Second) ∧
    List.Chain' (fun p q => q = min (2 * p) (MAX_BACKOFF * Second) ∧ p ≤ q)
      (sleeps (connectWithRetry [refused, refused, refused]).trace) ∧
    (∀ k : Nat, 1 ≤ backoffAfter k ∧ backoffAfter k * 2 ≤ 1200 ∧
      wrapInt64 (backoffAfter k * 2) = backoffAfter k * 2 ∧
      backoffAfter (k + 1) = min (backoffAfter k * 2) MAX_BACKOFF) :=
  connectWithRetry_wait_bounds [refused, refused, refused] (by decide)

theorem connectToServer_ne_none_iff (env : SessionEnv) :
    connectToServer env ≠ none ↔
      (env.dialOk = false ∨ env.stdinPipeOk = false ∨ env.stdoutPipeOk = false ∨
        env.stderrPipeOk = false ∨ env.startOk = false) := by
  obtain ⟨d, i, o, e, s, w, f1, f2, f3⟩ := env
  cases d <;> cases i <;> cases o <;> cases e <;> cases s <;> simp [connectToServer]

/-- From a state with a positive counter the loop first sleeps for the current
backoff and then calls `connectToServer`. -/
theorem connectWithRetryLoop_retry (a : Nat) (b : Int) (envs : List SessionEnv) :
    ∃ t, (connectWithRetryLoop (a + 1) b envs).trace =
      Event.sleep (wrapInt64 (b * Second)) :: Event.connect (a + 1) :: t := by
  cases envs with
  | nil => exact ⟨[], by simp [connectWithRetryLoop, waitBefore]⟩
  | cons e es =>
    cases hc : connectToServer e with
    | none =>
      rw [connectWithRetryLoop_connected _ _ _ _ hc]
      exact ⟨[Event.returned], by simp [waitBefore]⟩
    | some x =>
      rw [connectWithRetryLoop_failed _ _ _ _ (by rw [hc]; exact Option.some_ne_none x)]
      exact ⟨_, by simp [waitBefore]; rfl⟩

/-- C7: `connectToServer` returns a non-nil error exactly when the dial, the
creation of one of the three pipes, or the start of the child fails; its
return value does not depend on how the child ended nor on what the
forwarders met, so that it is nil once the child has started.  In
`connectWithRetry` a failure to spawn is handled exactly as a refused
connection: the counter is incremented, the backoff doubled, and the next
attempt follows a sleep of the new backoff.  A session whose child started
makes `connectWithRetry` return nil, and the loop of `main` calls it again,
for a fresh attempt with the counter at 0. -/
theorem connectToServer_error_handling (env : SessionEnv) (a : Nat) (b : Int)
    (rest : List SessionEnv) (fuel : Nat) :
    (connectToServer env ≠ none ↔
      (env.dialOk = false ∨ env.stdinPipeOk = false ∨ env.stdoutPipeOk = false ∨
        env.stderrPipeOk = false ∨ env.startOk = false)) ∧
    (∀ (w : WaitResult) (f1 f2 f3 : Bool),
      connectToServer
          { env with
            wait := w, inboundFailed := f1, outboundFailed := f2, diagnosticFailed := f3 } =
        connectToServer env) ∧
    (connectToServer env ≠ none →
      connectWithRetryLoop a b (env :: rest) = connectWithRetryLoop a b (refused :: rest) ∧
      connectWithRetryLoop a b (env :: rest) =
        { connectWithRetryLoop (a + 1) (nextBackoff b) rest with
          trace := waitBefore a b ++
            Event.connect a :: (connectWithRetryLoop (a + 1) (nextBackoff b) rest).trace } ∧
      ∃ t, (connectWithRetryLoop (a + 1) (nextBackoff b) rest).trace =
        Event.sleep (wrapInt64 (nextBackoff b * Second)) :: Event.connect (a + 1) :: t) ∧
    (connectToServer env = none →
      connectWithRetryLoop a b (env :: rest) =
        { trace := waitBefore a b ++ [Event.connect a, Event.returned],
          result := some none, rest := rest } ∧
      mainLoop (fuel + 1) (env :: rest) =
        [Event.connect 0, Event.returned] ++ mainLoop fuel rest) := by
  refine ⟨connectToServer_ne_none_iff env, ?_, ?_, ?_⟩
  · intro w f1 f2 f3
    rfl
  · intro h
    have hr : connectToServer refused ≠ none := by decide
    exact ⟨by rw [connectWithRetryLoop_failed _ _ _ _ h, connectWithRetryLoop_failed _ _ _ _ hr],
      connectWithRetryLoop_failed _ _ _ _ h, connectWithRetryLoop_retry _ _ _⟩
  · intro h
    exact ⟨connectWithRetryLoop_connected _ _ _ _ h, mainLoop_connected _ _ _ h⟩

/-- C7 at a child that cannot be started (the third attempt, backoff 4), and
at a child that started and was killed by signal 9. -/
theorem connectToServer_error_handling_witness :
    connectWithRetryLoop 2 4 [{ session (WaitResult.exited 0) with startOk := false }] =
      connectWithRetryLoop 2 4 [refused] ∧
    mainLoop 2 [session (WaitResult.signaled 9)] =
      [Event.connect 0, Event.returned] ++ mainLoop 1 [] :=
  ⟨((connectToServer_error_handling { session (WaitResult.exited 0) with startOk := false }
      2 4 [] 0).2.2.1 (by decide)).1,
   ((connectToServer_error_handling (session (WaitResult.signaled 9)) 0 1 [] 1).2.2.2
      (by decide)).2⟩

/-- C10: after any number of failed attempts in a row `connectWithRetry` has
made one attempt more and has not returned; it returns only nil, and only
when an attempt has succeeded; the loop of `main` makes a further attempt
after every outcome of an attempt, failed or not; and `main` leaves the loop
through neither: it ends with a fatal error only when the command or the
endpoint is missing. -/
theorem supervisor_never_gives_up (envs : List SessionEnv) (args : List String)
    (endpoint : String) (fuel : Nat) :
    ((∀ e ∈ envs, connectToServer e ≠ none) →
      connects (connectWithRetry envs).trace = envs.length + 1 ∧
      (connectWithRetry envs).result = none) ∧
    ((connectWithRetry envs).result = none ∨ (connectWithRetry envs).result = some none) ∧
    ((connectWithRetry envs).result = some none ↔ ∃ e ∈ envs, connectToServer e = none) ∧
    (envs.length < fuel → connects (mainLoop fuel envs) = envs.length + 1) ∧
    (2 ≤ args.length → endpoint ≠ "" →
      main args endpoint fuel envs = MainOutcome.serving (mainLoop fuel envs)) ∧
    (∀ msg, main args endpoint fuel envs = MainOutcome.fatal msg →
      args.length < 2 ∨ endpoint = "") := by
  refine ⟨?_, result_connectWithRetryLoop envs 0 INITIAL_BACKOFF,
    result_connectWithRetryLoop_iff envs 0 INITIAL_BACKOFF, connects_mainLoop fuel envs, ?_, ?_⟩
  · intro h
    have hnone : (connectWithRetry envs).result = none := by
      rcases result_connectWithRetryLoop envs 0 INITIAL_BACKOFF with h0 | h0
      · exact h0
      · obtain ⟨e, he, hc⟩ := (result_connectWithRetryLoop_iff envs 0 INITIAL_BACKOFF).1 h0
        exact absurd hc (h e he)
    obtain ⟨h1, _, h3⟩ := connects_connectWithRetryLoop envs 0 INITIAL_BACKOFF
    unfold connectWithRetry at hnone ⊢
    rw [h3 hnone] at h1
    simp only [hnone, if_true, List.length_nil, Nat.add_zero] at h1
    exact ⟨h1, hnone⟩
  · intro ha he
    unfold main
    rw [if_neg (by omega), if_neg he]
  · intro msg hm
    unfold main at hm
    by_cases ha : args.length < 2
    · exact Or.inl ha
    · by_cases he : endpoint = ""
      · exact Or.inr he
      · rw [if_neg ha, if_neg he] at hm
        cases hm

/-- C10 at two refused connections, and at a refused connection followed by a
session whose child exits with status 1. -/
theorem supervisor_never_gives_up_witness :
    connects (connectWithRetry [refused, refused]).trace = 3 ∧
    (connectWithRetry [refused, refused]).result = none ∧
    connects (mainLoop 3 [refused, session (WaitResult.exited 1)]) = 3 ∧
    main ["xiaozhi-mcp-pipe", "cat"] "ws://localhost" 3 [refused, session (WaitResult.exited 1)] =
      MainOutcome.serving (mainLoop 3 [refused, session (WaitResult.exited 1)]) :=
  ⟨((supervisor_never_gives_up [refused, refused] [] "" 0).1 (by decide)).1,
   ((supervisor_never_gives_up [refused, refused] [] "" 0).1 (by decide)).2,
   (supervisor_never_gives_up [refused, session (WaitResult.exited 1)] [] "" 3).2.2.2.1
     (by decide),
   (supervisor_never_gives_up [refused, session (WaitResult.exited 1)]
     ["xiaozhi-mcp-pipe", "cat"] "ws://localhost" 3).2.2.2.2.1 (by decide) (by decide)⟩

/-! ## pipeWebSocketToProcess: the claims -/

theorem pipeWebSocketToProcessLoop_delivered (ms : List Bytes) (rest : List InboundStep) :
    pipeWebSocketToProcessLoop (ms.map delivered ++ rest) =
      { trace := ms.map (fun m => StdinEvent.write (m ++ [newline])) ++
          (pipeWebSocketToProcessLoop rest).trace,
        returned := (pipeWebSocketToProcessLoop rest).returned } := by
  induction ms with
  | nil => rfl
  | cons m ms ih => simp [pipeWebSocketToProcessLoop, delivered, Run.cons, ih]

theorem pipeWebSocketToProcess_forwards_aux (ms : List Bytes) (rest : List InboundStep) :
    pipeWebSocketToProcess (ms.map delivered ++ readError :: rest) =
      { trace := ms.map (fun m => StdinEvent.write (m ++ [newline])) ++ [StdinEvent.close],
        returned := true } := by
  simp [pipeWebSocketToProcess, pipeWebSocketToProcessLoop_delivered,
    pipeWebSocketToProcessLoop, readError]

/-- C3: when the channel delivers the messages `ms` and then fails to read,
with no cancellation and no failing write, `pipeWebSocketToProcess` issues
one write to stdin for each message, in the order of `ms`, each being the
bytes of the message followed by one newline byte, then closes stdin and
returns; as long as the channel has delivered `ms` and nothing else, those
same writes are all it has done. -/
theorem pipeWebSocketToProcess_forwards (ms : List Bytes) (rest : List InboundStep) :
    pipeWebSocketToProcess (ms.map delivered ++ readError :: rest) =
      { trace := ms.map (fun m => StdinEvent.write (m ++ [newline])) ++ [StdinEvent.close],
        returned := true } ∧
    pipeWebSocketToProcess (ms.map delivered) =
      { trace := ms.map (fun m => StdinEvent.write (m ++ [newline])), returned := false } := by
  constructor
  · exact pipeWebSocketToProcess_forwards_aux ms rest
  · have h := pipeWebSocketToProcessLoop_delivered ms []
    rw [List.append_nil] at h
    simp [pipeWebSocketToProcess, h, pipeWebSocketToProcessLoop]

theorem pipeWebSocketToProcessLoop_writes (steps : List InboundStep) :
    (∃ ws : List Bytes, (pipeWebSocketToProcessLoop steps).trace = ws.map StdinEvent.write) ∧
    ((pipeWebSocketToProcessLoop steps).returned = true ↔ ∃ s ∈ steps, s.stops = true) := by
  induction steps with
  | nil => exact ⟨⟨[], rfl⟩, by simp [pipeWebSocketToProcessLoop]⟩
  | cons s steps ih =>
    obtain ⟨⟨ws, hws⟩, hret⟩ := ih
    obtain ⟨c, r, w⟩ := s
    cases c
    · cases r with
      | none =>
        exact ⟨⟨[], by simp [pipeWebSocketToProcessLoop]⟩,
          by simp [pipeWebSocketToProcessLoop, InboundStep.stops]⟩
      | some m =>
        cases w
        · exact ⟨⟨[m ++ [newline]], by simp [pipeWebSocketToProcessLoop]⟩,
            by simp [pipeWebSocketToProcessLoop, InboundStep.stops]⟩
        · exact ⟨⟨(m ++ [newline]) :: ws, by simp [pipeWebSocketToProcessLoop, Run.cons, hws]⟩,
            by simp [pipeWebSocketToProcessLoop, InboundStep.stops, Run.cons, hret]⟩
    · exact ⟨⟨[], by simp [pipeWebSocketToProcessLoop]⟩,
        by simp [pipeWebSocketToProcessLoop, InboundStep.stops]⟩

/-- C8: `pipeWebSocketToProcess` returns exactly when an iteration meets a
cancellation, a channel read error or a stdin write error; when it has
returned, its effects on stdin are writes followed by one close, the close
being the last effect; and while it has not returned it has not closed
stdin.  So a channel read error in the script always ends in a closed
stdin. -/
theorem pipeWebSocketToProcess_closes_stdin (steps : List InboundStep) :
    ((pipeWebSocketToProcess steps).returned = true ↔ ∃ s ∈ steps, s.stops = true) ∧
    ((pipeWebSocketToProcess steps).returned = true →
      ∃ ws : List Bytes, (pipeWebSocketToProcess steps).trace =
        ws.map StdinEvent.write ++ [StdinEvent.close]) ∧
    ((pipeWebSocketToProcess steps).returned = false →
      ∃ ws : List Bytes, (pipeWebSocketToProcess steps).trace = ws.map StdinEvent.write) ∧
    ((∃ s ∈ steps, s.read = none) →
      (pipeWebSocketToProcess steps).returned = true ∧
      (pipeWebSocketToProcess steps).trace.count StdinEvent.close = 1 ∧
      (pipeWebSocketToProcess steps).trace.getLast? = some StdinEvent.close) := by
  obtain ⟨⟨ws, hws⟩, hret⟩ := pipeWebSocketToProcessLoop_writes steps
  have hcount : ∀ l : List Bytes, (l.map StdinEvent.write).count StdinEvent.close = 0 := by
    intro l
    induction l with
    | nil => rfl
    | cons x xs ih => simpa [List.count_cons] using ih
  cases hr : (pipeWebSocketToProcessLoop steps).returned with
  | false =>
    have hnot : ¬ ∃ s ∈ steps, s.stops = true := by
      rw [← hret, hr]
      exact Bool.false_ne_true
    refine ⟨by simp [pipeWebSocketToProcess, hr, hnot], by simp [pipeWebSocketToProcess, hr],
      fun _ => ⟨ws, by simp [pipeWebSocketToProcess, hr, hws]⟩, ?_⟩
    rintro ⟨s, hs, hread⟩
    exact absurd ⟨s, hs, by simp [InboundStep.stops, hread]⟩ hnot
  | true =>
    have hex : ∃ s ∈ steps, s.stops = true := hret.1 hr
    refine ⟨by simp [pipeWebSocketToProcess, hr, hex],
      fun _ => ⟨ws, by simp [pipeWebSocketToProcess, hr, hws]⟩,
      by simp [pipeWebSocketToProcess, hr], fun _ => ?_⟩
    refine ⟨by simp [pipeWebSocketToProcess, hr], ?_, by simp [pipeWebSocketToProcess, hr]⟩
    simp [pipeWebSocketToProcess, hr, hws, List.count_append, hcount]

/-- C8 at a channel that delivers one message and then fails. -/
theorem pipeWebSocketToProcess_closes_stdin_witness :
    (pipeWebSocketToProcess [delivered [112, 105], readError]).returned = true ∧
    (pipeWebSocketToProcess [delivered [112, 105], readError]).trace.count StdinEvent.close = 1 ∧
    (pipeWebSocketToProcess [delivered [112, 105], readError]).trace.getLast? =
      some StdinEvent.close :=
  (pipeWebSocketToProcess_closes_stdin [delivered [112, 105], readError]).2.2.2
    ⟨readError, by decide, rfl⟩

/-! ## pipeProcessStderrToTerminal: the claims -/

theorem stderrBytes_passthrough (chunks : List Bytes) :
    stderrBytes (passthrough chunks ++ [DiagEvent.read]) = chunks.flatten ∧
    readCount (passthrough chunks ++ [DiagEvent.read]) = chunks.length + 1 := by
  induction chunks with
  | nil => exact ⟨rfl, rfl⟩
  | cons c cs ih => simp [passthrough, stderrBytes, readCount, ih.1, ih.2]

/-- C9: when the reads of the child's stderr return the non-empty chunks
`chunks` without error and the next read returns an error or zero bytes, the
session not being cancelled, `pipeProcessStderrToTerminal` reads and writes
each chunk in turn, makes that one further read and returns: the bytes
written to the local stderr are the concatenation of the chunks, in order and
unmodified, nothing of the stopping read is written, and whatever the script
holds after it is neither read nor written. -/
theorem pipeProcessStderrToTerminal_passthrough (chunks : List Bytes) (stop : StderrStep)
    (rest : List StderrStep) (hchunks : ∀ c ∈ chunks, c ≠ [])
    (hctx : stop.ctxDone = false) (hstop : stop.err = true ∨ stop.data = []) :
    pipeProcessStderrToTerminal (chunks.map gotChunk ++ stop :: rest) =
      { trace := passthrough chunks ++ [DiagEvent.read], returned := true } ∧
    stderrBytes (pipeProcessStderrToTerminal (chunks.map gotChunk ++ stop :: rest)).trace =
      chunks.flatten ∧
    readCount (pipeProcessStderrToTerminal (chunks.map gotChunk ++ stop :: rest)).trace =
      chunks.length + 1 := by
  have hrun : pipeProcessStderrToTerminal (chunks.map gotChunk ++ stop :: rest) =
      { trace := passthrough chunks ++ [DiagEvent.read], returned := true } := by
    induction chunks with
    | nil =>
      obtain ⟨c, d, e⟩ := stop
      simp only at hctx hstop
      subst hctx
      rcases hstop with h | h
      · subst h
        simp [pipeProcessStderrToTerminal, passthrough]
      · subst h
        cases e <;> simp [pipeProcessStderrToTerminal, passthrough]
    | cons c cs ih =>
      have hc : c ≠ [] := hchunks c (List.mem_cons_self _ _)
      have ih := ih (fun x hx => hchunks x (List.mem_cons_of_mem _ hx))
      simp [pipeProcessStderrToTerminal, gotChunk, passthrough, Run.cons, hc, ih]
  rw [hrun]
  exact ⟨rfl, (stderrBytes_passthrough chunks).1, (stderrBytes_passthrough chunks).2⟩

/-- C9 at two chunks followed by the end of the stream. -/
theorem pipeProcessStderrToTerminal_passthrough_witness :
    pipeProcessStderrToTerminal
        ([[101, 114], [114]].map gotChunk ++
          { ctxDone := false, data := [], err := true } :: [gotChunk [33]]) =
      { trace := passthrough [[101, 114], [114]] ++ [DiagEvent.read], returned := true } ∧
    stderrBytes (pipeProcessStderrToTerminal
        ([[101, 114], [114]].map gotChunk ++
          { ctxDone := false, data := [], err := true } :: [gotChunk [33]])).trace =
      [[101, 114], [114]].flatten ∧
    readCount (pipeProcessStderrToTerminal
        ([[101, 114], [114]].map gotChunk ++
          { ctxDone := false, data := [], err := true } :: [gotChunk [33]])).trace =
      [[101, 114], [114]].length + 1 :=
  pipeProcessStderrToTerminal_passthrough [[101, 114], [114]]
    { ctxDone := false, data := [], err := true } [gotChunk [33]] (by decide) rfl (Or.inl rfl)

/-! ## The scanner -/

theorem indexByteFrom_none (c : UInt8) (l : Bytes) (i : Nat) (h : c ∉ l) :
    indexByteFrom c i l = none := by
  induction l generalizing i with
  | nil => rfl
  | cons b bs ih =>
    have hb : b ≠ c := fun hbc => h (hbc ▸ List.mem_cons_self _ _)
    have hbs : c ∉ bs := fun hm => h (List.mem_cons_of_mem _ hm)
    simp [indexByteFrom, hb, ih _ hbs]

theorem indexByteFrom_append (c : UInt8) (l rest : Bytes) (i : Nat) (h : c ∉ l) :
    indexByteFrom c i (l ++ c :: rest) = some (i + l.length) := by
  induction l generalizing i with
  | nil => simp [indexByteFrom]
  | cons b bs ih =>
    have hb : b ≠ c := fun hbc => h (hbc ▸ List.mem_cons_self _ _)
    have hbs : c ∉ bs := fun hm => h (List.mem_cons_of_mem _ hm)
    simp [indexByteFrom, hb, ih _ hbs]
    omega

/-- A line that fits in the buffer is the next token, without its newline
and without a final carriage return. -/
theorem Scan_line (l rest token : Bytes) (err : Option ScanError) (hnl : newline ∉ l)
    (hlen : l.length < MaxScanTokenSize) :
    Scanner.Scan { input := l ++ newline :: rest, token := token, err := err, done := false } =
      (true, { input := rest, token := dropCR l, err := err, done := false }) := by
  have htake : List.take MaxScanTokenSize (l ++ newline :: rest) =
      l ++ newline :: List.take (MaxScanTokenSize - l.length - 1) rest := by
    rw [List.take_append_eq_append_take, List.take_of_length_le (Nat.le_of_lt hlen)]
    obtain ⟨k, hk⟩ : ∃ k, MaxScanTokenSize - l.length = k + 1 := ⟨_, (Nat.sub_add_cancel
      (Nat.sub_pos_of_lt hlen)).symm⟩
    rw [hk, List.take_succ_cons, Nat.add_sub_cancel]
  have hidx : IndexByte (l ++ newline :: List.take (MaxScanTokenSize - l.length - 1) rest)
      newline = some l.length := by
    unfold IndexByte
    rw [indexByteFrom_append _ _ _ _ hnl, Nat.zero_add]
  have hdrop : List.drop (l.length + 1) (l ++ newline :: rest) = rest := by
    rw [show l ++ newline :: rest = (l ++ [newline]) ++ rest by simp]
    exact List.drop_left' (by simp)
  simp only [Scanner.Scan, ScanLines, htake, hidx, List.take_left, hdrop]
  simp

/-- At the end of the input the scanner stops without error. -/
theorem Scan_end (token : Bytes) (err : Option ScanError) :
    (Scanner.Scan { input := [], token := token, err := err, done := false }).1 = false := by
  simp [Scanner.Scan, ScanLines, IndexByte, indexByteFrom, MaxScanTokenSize]

/-- A line that does not fit in the buffer ends the scan with `ErrTooLong`. -/
theorem Scan_too_long (l rest token : Bytes) (err : Option ScanError) (hnl : newline ∉ l)
    (hlen : MaxScanTokenSize ≤ l.length) :
    Scanner.Scan { input := l ++ rest, token := token, err := err, done := false } =
      (false,
        { input := l ++ rest, token := token, err := some ScanError.ErrTooLong, done := true }) := by
  have htake : List.take MaxScanTokenSize (l ++ rest) = List.take MaxScanTokenSize l :=
    List.take_append_of_le_length hlen
  have hidx : IndexByte (List.take MaxScanTokenSize l) newline = none :=
    indexByteFrom_none _ _ _ (fun hm => hnl (List.mem_of_mem_take hm))
  have hge : MaxScanTokenSize ≤ (l ++ rest).length := by
    rw [List.length_append]
    omega
  simp only [Scanner.Scan, ScanLines, htake, hidx, ge_iff_le, hge, if_true]
  simp

theorem dropCR_eq_self (l : Bytes) (h : l.getLast? ≠ some carriageReturn) : dropCR l = l := by
  simp [dropCR, h]

theorem not_mem_dropCR (l : Bytes) (c : UInt8) (h : c ∉ l) : c ∉ dropCR l := by
  unfold dropCR
  split
  · exact fun hm => h (List.mem_of_mem_dropLast hm)
  · exact h

/-! ## pipeProcessToWebSocket: the claims -/

theorem pipeProcessToWebSocketLoop_lines (ls : List Bytes) (rest : List OutboundStep)
    (token : Bytes) (err : Option ScanError)
    (h : ∀ l ∈ ls, newline ∉ l ∧ l.length < MaxScanTokenSize) :
    pipeProcessToWebSocketLoop
        { input := joinLines ls, token := token, err := err, done := false }
        (ls.map (fun _ => forwarded) ++ rest) =
      { trace := ls.map (fun l => ConnEvent.send (dropCR l)), returned := true } := by
  induction ls generalizing token with
  | nil =>
    have hend := Scan_end token err
    cases rest with
    | nil =>
      simp only [joinLines, List.map_nil, List.append_nil, pipeProcessToWebSocketLoop]
      split
      · rfl
      · next heq => rw [heq] at hend; cases hend
    | cons c cs =>
      simp only [joinLines, List.map_nil, List.nil_append, pipeProcessToWebSocketLoop]
      split
      · rfl
      · next heq => rw [heq] at hend; cases hend
  | cons l ls ih =>
    obtain ⟨hnl, hlen⟩ := h l (List.mem_cons_self _ _)
    have ih := ih (dropCR l) (fun x hx => h x (List.mem_cons_of_mem _ hx))
    simp only [joinLines, List.map_cons, List.cons_append, pipeProcessToWebSocketLoop,
      Scan_line l _ token err hnl hlen, Run.cons, List.append_eq, ih]
    rfl

theorem sent_sends (ls : List Bytes) :
    sent (ls.map ConnEvent.send ++ [ConnEvent.close]) = ls := by
  induction ls with
  | nil => rfl
  | cons l ls ih => simp [sent, ih]

theorem map_dropCR_eq_self (ls : List Bytes) (h : ∀ l ∈ ls, l.getLast? ≠ some carriageReturn) :
    ls.map dropCR = ls := by
  induction ls with
  | nil => rfl
  | cons l ls ih =>
    rw [List.map_cons, dropCR_eq_self l (h l (List.mem_cons_self _ _)),
      ih (fun x hx => h x (List.mem_cons_of_mem _ hx))]

theorem pipeProcessToWebSocket_lines (ls : List Bytes) (rest : List OutboundStep)
    (h : ∀ l ∈ ls, newline ∉ l ∧ l.length < MaxScanTokenSize) :
    pipeProcessToWebSocket (joinLines ls) (ls.map (fun _ => forwarded) ++ rest) =
      { trace := (ls.map dropCR).map ConnEvent.send ++ [ConnEvent.close], returned := true } := by
  unfold pipeProcessToWebSocket NewScanner
  rw [pipeProcessToWebSocketLoop_lines ls rest [] none h]
  simp

/-- C4, as amended: when the child writes the newline-delimited lines `ls`,
each without a newline byte and shorter than `MaxScanTokenSize` = 65536
bytes, and then ends its output, with no cancellation and no failing channel
write, `pipeProcessToWebSocket` sends one message for each line, in the order
of the lines, each being the line without its newline and without one final
carriage return byte, then closes the channel and returns; no message holds
a newline byte; and when no line ends in a carriage return the messages are
exactly the lines. -/
theorem pipeProcessToWebSocket_forwards_lines (ls : List Bytes) (rest : List OutboundStep)
    (h : ∀ l ∈ ls, newline ∉ l ∧ l.length < MaxScanTokenSize) :
    pipeProcessToWebSocket (joinLines ls) (ls.map (fun _ => forwarded) ++ rest) =
      { trace := (ls.map dropCR).map ConnEvent.send ++ [ConnEvent.close], returned := true } ∧
    sent (pipeProcessToWebSocket (joinLines ls) (ls.map (fun _ => forwarded) ++ rest)).trace =
      ls.map dropCR ∧
    (∀ m ∈ sent (pipeProcessToWebSocket (joinLines ls)
        (ls.map (fun _ => forwarded) ++ rest)).trace, newline ∉ m) ∧
    ((∀ l ∈ ls, l.getLast? ≠ some carriageReturn) →
      sent (pipeProcessToWebSocket (joinLines ls) (ls.map (fun _ => forwarded) ++ rest)).trace =
        ls) := by
  rw [pipeProcessToWebSocket_lines ls rest h]
  refine ⟨rfl, sent_sends _, ?_, ?_⟩
  · intro m hm
    rw [sent_sends] at hm
    obtain ⟨l, hl, rfl⟩ := List.mem_map.1 hm
    exact not_mem_dropCR l newline (h l hl).1
  · intro hcr
    rw [sent_sends, map_dropCR_eq_self ls hcr]

/-- C4 at the lines "ok" and "a\rb". -/
theorem pipeProcessToWebSocket_forwards_lines_witness :
    sent (pipeProcessToWebSocket (joinLines [[111, 107], [97, 13, 98]])
      ([[111, 107], [97, 13, 98]].map (fun _ => forwarded) ++ [])).trace =
        [[111, 107], [97, 13, 98]] :=
  (pipeProcessToWebSocket_forwards_lines [[111, 107], [97, 13, 98]] []
    (by decide)).2.2.2 (by decide)

/-- A line that does not fit in the buffer of the scanner is not forwarded. -/
theorem pipeProcessToWebSocket_too_long (l : Bytes) (hnl : newline ∉ l)
    (hlen : MaxScanTokenSize ≤ l.length) :
    sent (pipeProcessToWebSocket (joinLines [l]) [forwarded]).trace = [] := by
  have hscan := Scan_too_long l [newline] [] none hnl hlen
  have hrun : pipeProcessToWebSocket (joinLines [l]) [forwarded] =
      { trace := [ConnEvent.close], returned := true } := by
    simp only [pipeProcessToWebSocket, NewScanner, joinLines, pipeProcessToWebSocketLoop, hscan]
    rfl
  rw [hrun]
  rfl

/-- C4 as stated fails: for the line "a\r" the message sent is "a", not the
bytes of the line; and for a line of 65536 bytes no message is sent at all. -/
theorem pipeProcessToWebSocket_line_not_verbatim :
    sent (pipeProcessToWebSocket (joinLines [[97, 13]]) [forwarded]).trace ≠ [[97, 13]] ∧
    sent (pipeProcessToWebSocket (joinLines [List.replicate 65536 97]) [forwarded]).trace ≠
      [List.replicate 65536 97] := by
  constructor
  · decide
  · have hnl : newline ∉ List.replicate 65536 (97 : UInt8) := by
      intro hm
      exact absurd (List.eq_of_mem_replicate hm) (by decide)
    have hlen : MaxScanTokenSize ≤ (List.replicate 65536 (97 : UInt8)).length := by
      rw [List.length_replicate]
      decide
    rw [pipeProcessToWebSocket_too_long _ hnl hlen]
    exact (List.cons_ne_nil _ _).symm

/-! ## The round trip through an identity child -/

theorem stdinBytes_writes (ms : List Bytes) :
    stdinBytes (ms.map (fun m => StdinEvent.write (m ++ [newline])) ++ [StdinEvent.close]) =
      joinLines ms := by
  induction ms with
  | nil => rfl
  | cons m ms ih => simp [stdinBytes, joinLines, ih]

theorem length_le_length_joinLines (ms : List Bytes) : ms.length ≤ (joinLines ms).length := by
  induction ms with
  | nil => simp
  | cons m ms ih =>
    simp only [joinLines, List.length_cons, List.length_append]
    omega

theorem roundTrip_eq (ms : List Bytes)
    (h : ∀ m ∈ ms, newline ∉ m ∧ m.length < MaxScanTokenSize) :
    roundTrip ms = ms.map dropCR := by
  have hsteps : List.replicate ((joinLines ms).length + 1) forwarded =
      ms.map (fun _ => forwarded) ++
        List.replicate ((joinLines ms).length + 1 - ms.length) forwarded := by
    have hle := length_le_length_joinLines ms
    rw [List.map_const', ← List.replicate_add]
    congr 1
    omega
  unfold roundTrip
  simp only [(pipeWebSocketToProcess_forwards_aux ms []), stdinBytes_writes]
  rw [hsteps, pipeProcessToWebSocket_lines ms _ h, sent_sends]

/-- C5, as amended: through a child that copies its stdin to its stdout, for
inbound messages each without a newline byte and shorter than
`MaxScanTokenSize` = 65536 bytes, the messages sent back are the inbound
messages, same count and same order, each without one final carriage return
byte; they are exactly the inbound messages when none of these ends in a
carriage return. -/
theorem roundTrip_identity (ms : List Bytes)
    (h : ∀ m ∈ ms, newline ∉ m ∧ m.length < MaxScanTokenSize) :
    roundTrip ms = ms.map dropCR ∧
    ((∀ m ∈ ms, m.getLast? ≠ some carriageReturn) → roundTrip ms = ms) :=
  ⟨roundTrip_eq ms h, fun hcr => by rw [roundTrip_eq ms h, map_dropCR_eq_self ms hcr]⟩

/-- C5 at the inbound messages "ping" and "pong". -/
theorem roundTrip_identity_witness :
    roundTrip [[112, 105, 110, 103], [112, 111, 110, 103]] =
      [[112, 105, 110, 103], [112, 111, 110, 103]] :=
  (roundTrip_identity [[112, 105, 110, 103], [112, 111, 110, 103]] (by decide)).2 (by decide)

/-- C5 as stated fails: the inbound message "ping\r" holds no newline byte and
comes back as "ping". -/
theorem roundTrip_drops_carriage_return :
    roundTrip [[112, 105, 110, 103, 13]] = [[112, 105, 110, 103]] ∧
    roundTrip [[112, 105, 110, 103, 13]] ≠ [[112, 105, 110, 103, 13]] := by
  decide

end XiaozhiMcpPipe
